import Mathlib

/-
  Verification of the server-commands htmx extension
  (src/server-commands/server-commands.js, promise-based variant).

  The JavaScript source is shallowly embedded: command markers become a
  `CommandElt` record, the parsed response fragment becomes a `Node` tree,
  and the executor `processCommandFromElement` becomes a total function
  producing an ordered trace of `Effect`s plus a list of deferred effects
  (continuations such as the history push scheduled by the `location`
  command's non-awaited `htmx.ajax(...).then(...)`).  Host collaborators
  (event-listener cancellation, `htmx.find` over the live document,
  `JSON.parse`, the swap/settle collaborator) are environment parameters,
  mirroring the spec's own scoping of them as external interfaces.
-/

namespace ServerCommands

/-- JSON values as produced by the host JSON.parse (numbers restricted to
integers; no claim depends on fractional values). -/
inductive Json where
  | str (s : String)
  | num (n : Int)
  | bool (b : Bool)
  | null
  | arr (elems : List Json)
  | obj (fields : List (String × Json))

/-- A command marker `<htmx ...>...</htmx>`: its attribute list (name/value
pairs in document order) and its serialized inner content. -/
structure CommandElt where
  attrs : List (String × String)
  innerHTML : String
deriving DecidableEq

/-- A swap job derived from a marker with a resolvable `target` attribute:
the selector that resolved and the marker's inner content (source:
`swapJobs.push({ targetEl: commandTargetEl, content: commandElt.innerHTML })`). -/
structure SwapJob where
  targetSel : String
  content : String
deriving DecidableEq

/-- One item of a collected validation diagnostic (source: the `errors`
array in `validateCommandElement`). -/
inductive ValidationIssue where
  | unknownAttribute (name : String)
  | swapOrSelectWithoutTarget
deriving DecidableEq

/-- The error thrown by `validateCommandElement`: either the immediate
"no command attributes" throw, or the collected list of issues. -/
inductive ValidationError where
  | noCommandAttributes
  | collected (issues : List ValidationIssue)
deriving DecidableEq

/-- Exceptions that can reach the marker-boundary `catch` in
`processCommandFromElement`. -/
inductive Err where
  | validation (e : ValidationError)
  | findThrew (sel : String) (msg : String)
  | swapReject (msg : String)
  | jsonParseThrew (s : String)
deriving DecidableEq

/-- Where an event is dispatched: the triggering context element, the
document body, or an element found by selector. -/
inductive EvtTarget where
  | context
  | body
  | selector (s : String)
deriving DecidableEq

/-- Observable side effects of processing, in execution order. -/
inductive Effect where
  | beforeServerCommandEvt (elt : CommandElt)
  | targetErrorEvt (sel : String)
  | beforeSwapEvt (job : SwapJob)
  | swapApplied (job : SwapJob) (select : Option String) (swapStyle : String)
  | swapErrorEvt (job : SwapJob)
  | afterSwapEvt (elt : CommandElt)
  | dispatched (tgt : EvtTarget) (name : String) (detail : Option Json)
  | triggerTargetWarn (sel : String)
  | saveHistory
  | locationAjax (path : Option String) (opts : List (String × Json))
  | pushUrl (path : Option String)
  | replaceUrl (path : String)
  | redirectTo (url : String)
  | reload
  | afterServerCommandEvt (elt : CommandElt)
  | serverCommandErrorEvt (e : Err) (elt : CommandElt)

/-- Result of `htmx.find` (a `querySelector` call): an element was found,
nothing matched, or the selector was invalid and the call threw. -/
inductive FindResult where
  | found
  | notFound
  | threw (msg : String)
deriving DecidableEq

/-- Host environment: listener decisions, live-document selector lookup,
JSON.parse, and the swap collaborator.  `Dom` abstracts the live document
state, which only the swap collaborator mutates. -/
structure Env (Dom : Type) where
  cancelBeforeServerCommand : CommandElt → Bool
  find : Dom → String → FindResult
  jsonParse : String → Option Json
  cancelBeforeSwap : Dom → SwapJob → Bool
  shouldSwap : Dom → SwapJob → Bool
  swapResult : Dom → SwapJob → Option String
  applySwap : Dom → SwapJob → Dom

/-! ### Attribute access -/

/-- The enumerated attribute vocabulary (source: `VALID_COMMAND_ATTRIBUTES`). -/
def VALID_COMMAND_ATTRIBUTES : List String :=
  ["target", "swap", "select", "redirect", "refresh", "location",
   "push-url", "replace-url", "trigger", "trigger-after-swap", "trigger-after-settle"]

/-- `element.hasAttribute(name)`. -/
def hasAttr (elt : CommandElt) (name : String) : Bool :=
  elt.attrs.any (fun a => a.1 == name)

/-- `element.getAttribute(name)` / `api.getAttributeValue`: `none` models null. -/
def getAttr (elt : CommandElt) (name : String) : Option String :=
  (elt.attrs.find? (fun a => a.1 == name)).map (fun a => a.2)

/-- Attribute value with null defaulted to the empty string (used only at
places the source guards with `hasAttribute`). -/
def getAttrD (elt : CommandElt) (name : String) : String :=
  (getAttr elt name).getD ""

/-! ### JavaScript string and JSON helpers -/

/-- JS truthiness of a JSON value (`""`, `0`, `false`, `null` are falsy). -/
def jsTruthy : Json → Bool
  | .str s => s != ""
  | .num n => n != 0
  | .bool b => b
  | .null => false
  | .arr _ => true
  | .obj _ => true

/-- JS string coercion of a JSON value as used for selectors and paths.
Array/object coercion is not modelled precisely (no claim depends on it). -/
def jsToString : Json → String
  | .str s => s
  | .num n => toString n
  | .bool b => if b then "true" else "false"
  | .null => "null"
  | .arr _ => ""
  | .obj _ => "[object Object]"

/-- `delete detail.target` on a parsed JSON object: drop the field. -/
def removeField (key : String) (fields : List (String × Json)) : List (String × Json) :=
  fields.filter (fun a => a.1 != key)

/-- Fields of a JSON object; non-objects have none (matches reading
properties of a JS primitive, which yields undefined). -/
def jsonFields : Json → List (String × Json)
  | .obj fs => fs
  | _ => []

/-- Keys enumerated by a JS `for (k in v)` loop over a JSON.parse result:
object keys, array indices, string indices; none for other primitives. -/
def forInKeys : Json → List (String × Json)
  | .obj fs => fs
  | .arr xs => xs.enum.map (fun p => (toString p.1, p.2))
  | .str s => s.data.enum.map (fun p => (toString p.1, Json.str (String.singleton p.2)))
  | _ => []

/-- Whitespace for the JS `trim` model. -/
def isWs (c : Char) : Bool :=
  c == ' ' || c == '\t' || c == '\n' || c == '\r'

/-- Model of `String.prototype.trim`. -/
def jsTrim (s : String) : String :=
  String.mk (((s.data.dropWhile isWs).reverse.dropWhile isWs).reverse)

/-- Auxiliary for `split(',')`: accumulate the current chunk (reversed). -/
def splitCommaAux : List Char → List Char → List String
  | [], acc => [String.mk acc.reverse]
  | c :: cs, acc =>
      if c == ',' then String.mk acc.reverse :: splitCommaAux cs []
      else splitCommaAux cs (c :: acc)

/-- Model of `value.split(',')` (`""` yields `[""]`, like JS). -/
def jsSplitComma (s : String) : List String :=
  splitCommaAux s.data []

/-- Does the string start with a left brace (`redirectPath.indexOf('\x7b') === 0`)? -/
def startsWithLbrace (s : String) : Bool :=
  match s.data with
  | c :: _ => c == Char.ofNat 123
  | [] => false

/-! ### Validation (source: `validateCommandElement`, lines 228-263) -/

/-- Validate a marker.  `none` means the element is valid; `some e` models a
thrown error.  Mirrors the source: the "no command attributes" check throws
immediately on its own; afterwards unknown attributes and the
swap/select-without-target combination are collected into one error. -/
def validateCommandElement (elt : CommandElt) : Option ValidationError :=
  if !(elt.attrs.any (fun a => VALID_COMMAND_ATTRIBUTES.contains a.1)) then
    some ValidationError.noCommandAttributes
  else
    let unknown := elt.attrs.filterMap (fun a =>
      if VALID_COMMAND_ATTRIBUTES.contains a.1 then none
      else some (ValidationIssue.unknownAttribute a.1))
    let combo :=
      if (hasAttr elt "swap" || hasAttr elt "select") && !(hasAttr elt "target") then
        [ValidationIssue.swapOrSelectWithoutTarget]
      else []
    let errors := unknown ++ combo
    if errors.isEmpty then none else some (ValidationError.collected errors)

/-- The unknown-attribute items of the collected `errors` array. -/
def unknownIssues (elt : CommandElt) : List ValidationIssue :=
  elt.attrs.filterMap (fun a =>
    if VALID_COMMAND_ATTRIBUTES.contains a.1 then none
    else some (ValidationIssue.unknownAttribute a.1))

/-- The swap/select-without-target item of the collected `errors` array. -/
def comboIssues (elt : CommandElt) : List ValidationIssue :=
  if (hasAttr elt "swap" || hasAttr elt "select") && !(hasAttr elt "target") then
    [ValidationIssue.swapOrSelectWithoutTarget]
  else []

/-! ### Trigger dispatcher (source: `handleTriggerAttribute`, lines 269-292) -/

/-- Effects of one `for (eventName in triggers)` iteration: resolve a
`target` field inside an object detail (removing it from the payload), then
fire the event.  A `threw` result from `htmx.find` aborts with an error
(caught by the caller's `try`, which then falls back to comma mode). -/
def triggerKeyEffects {Dom : Type} (env : Env Dom) (d : Dom) (kv : String × Json) :
    List Effect × Option Err :=
  match kv.2 with
  | Json.obj gs =>
      match List.lookup "target" gs with
      | some tv =>
          if jsTruthy tv then
            match env.find d (jsToString tv) with
            | .found =>
                ([Effect.dispatched (EvtTarget.selector (jsToString tv)) kv.1
                    (some (Json.obj (removeField "target" gs)))], none)
            | .notFound =>
                ([Effect.triggerTargetWarn (jsToString tv),
                  Effect.dispatched EvtTarget.body kv.1
                    (some (Json.obj (removeField "target" gs)))], none)
            | .threw m => ([], some (Err.findThrew (jsToString tv) m))
          else ([Effect.dispatched EvtTarget.body kv.1 (some (Json.obj gs))], none)
      | none => ([Effect.dispatched EvtTarget.body kv.1 (some (Json.obj gs))], none)
  | j => ([Effect.dispatched EvtTarget.body kv.1 (some j)], none)

/-- Run the key loop, stopping at the first thrown exception (effects fired
before the throw have already happened). -/
def runTriggerKeys {Dom : Type} (env : Env Dom) (d : Dom) :
    List (String × Json) → List Effect × Option Err
  | [] => ([], none)
  | kv :: rest =>
      match triggerKeyEffects env d kv with
      | (fx, some e) => (fx, some e)
      | (fx, none) =>
          let r := runTriggerKeys env d rest
          (fx ++ r.1, r.2)

/-- The comma-separated fallback: split on commas, trim, fire each bare
event at the document body with no detail. -/
def triggerFallback (value : String) : List Effect :=
  (jsSplitComma value).map (fun n => Effect.dispatched EvtTarget.body (jsTrim n) none)

/-- Executes a trigger value (JSON or comma-separated events).  The `try`
covers both `JSON.parse` and the dispatch loop, so a throw inside the loop
also lands in the comma fallback. -/
def handleTriggerAttribute {Dom : Type} (env : Env Dom) (d : Dom) (value : String) :
    List Effect :=
  match env.jsonParse value with
  | some j =>
      match runTriggerKeys env d (forInKeys j) with
      | (fx, none) => fx
      | (fx, some _) => fx ++ triggerFallback value
  | none => triggerFallback value

/-! ### Navigation (source: `handleLocationAttribute`, lines 299-319) -/

/-- Output of a stage that can also schedule deferred continuations. -/
structure ImmOut where
  fx : List Effect
  deferred : List Effect
  err : Option Err
deriving Inhabited

/-- Handle the `location` attribute.  A value starting with a brace is
JSON-parsed first (a parse failure throws before anything is saved); then
the current page is saved and the ajax request issued.  The history push
runs in the non-awaited `.then(...)` continuation, hence is deferred. -/
def handleLocationAttribute {Dom : Type} (env : Env Dom) (value : String) : ImmOut :=
  if startsWithLbrace value then
    match env.jsonParse value with
    | none => ⟨[], [], some (Err.jsonParseThrew value)⟩
    | some j =>
        let fields := jsonFields j
        let path := (List.lookup "path" fields).map jsToString
        ⟨[Effect.saveHistory, Effect.locationAjax path (removeField "path" fields)],
         [Effect.pushUrl path], none⟩
  else
    ⟨[Effect.saveHistory, Effect.locationAjax (some value) []],
     [Effect.pushUrl (some value)], none⟩

/-! ### Executor (source: `processCommandFromElement`, lines 113-222) -/

/-- Output of the swap-job gathering step. -/
structure GatherOut where
  fx : List Effect
  jobs : List SwapJob
  err : Option Err
deriving Inhabited

/-- STEP 1: gather swap jobs.  A truthy `target` value is looked up in the
live document; a miss fires the dedicated `htmx:targetError` event and
creates no job; an invalid selector throws. -/
def gatherTarget {Dom : Type} (env : Env Dom) (d : Dom) (elt : CommandElt) : GatherOut :=
  match getAttr elt "target" with
  | some s =>
      if s == "" then ⟨[], [], none⟩
      else
        match env.find d s with
        | .found => ⟨[], [SwapJob.mk s elt.innerHTML], none⟩
        | .notFound => ⟨[Effect.targetErrorEvt s], [], none⟩
        | .threw m => ⟨[], [], some (Err.findThrew s m)⟩
  | none => ⟨[], [], none⟩

/-- Output of the swap-job loop. -/
structure SwapOut (Dom : Type) where
  fx : List Effect
  dom : Dom
  rejected : Option String

/-- STEP 2: process swap jobs.  Each job fires a cancelable `htmx:beforeSwap`
event at its target; if not cancelled and still flagged to proceed, the swap
collaborator runs (mutating the document) or rejects.  The first rejection
surfaces at the `await Promise.all` point after the loop. -/
def runSwapJobs {Dom : Type} (env : Env Dom) (d : Dom) (select : Option String)
    (style : String) : List SwapJob → SwapOut Dom
  | [] => ⟨[], d, none⟩
  | job :: rest =>
      if env.cancelBeforeSwap d job then
        let r := runSwapJobs env d select style rest
        ⟨Effect.beforeSwapEvt job :: r.fx, r.dom, r.rejected⟩
      else if env.shouldSwap d job then
        match env.swapResult d job with
        | none =>
            let d2 := env.applySwap d job
            let r := runSwapJobs env d2 select style rest
            ⟨Effect.beforeSwapEvt job :: Effect.swapApplied job select style :: r.fx,
             r.dom, r.rejected⟩
        | some m =>
            let r := runSwapJobs env d select style rest
            ⟨Effect.beforeSwapEvt job :: Effect.swapErrorEvt job :: r.fx, r.dom, some m⟩
      else
        let r := runSwapJobs env d select style rest
        ⟨Effect.beforeSwapEvt job :: r.fx, r.dom, r.rejected⟩

/-- The `location` sub-step of the immediate phase (guarded by `hasAttribute`). -/
def locationPart {Dom : Type} (env : Env Dom) (elt : CommandElt) : ImmOut :=
  if hasAttr elt "location" then handleLocationAttribute env (getAttrD elt "location")
  else ⟨[], [], none⟩

/-- The `trigger` sub-step of the immediate phase (guarded by `hasAttribute`). -/
def triggerPart {Dom : Type} (env : Env Dom) (d : Dom) (elt : CommandElt) : List Effect :=
  if hasAttr elt "trigger" then handleTriggerAttribute env d (getAttrD elt "trigger") else []

/-- The `trigger-after-swap` dispatch (STEP 3, guarded by `hasAttribute`). -/
def afterSwapTriggerPart {Dom : Type} (env : Env Dom) (d : Dom) (elt : CommandElt) : List Effect :=
  if hasAttr elt "trigger-after-swap" then
    handleTriggerAttribute env d (getAttrD elt "trigger-after-swap")
  else []

/-- The `trigger-after-settle` dispatch (STEP 5, guarded by `hasAttribute`). -/
def afterSettleTriggerPart {Dom : Type} (env : Env Dom) (d : Dom) (elt : CommandElt) : List Effect :=
  if hasAttr elt "trigger-after-settle" then
    handleTriggerAttribute env d (getAttrD elt "trigger-after-settle")
  else []

/-- The `push-url` sub-step: save the current page, then push. -/
def pushUrlPart (elt : CommandElt) : List Effect :=
  if hasAttr elt "push-url" then
    [Effect.saveHistory, Effect.pushUrl (some (getAttrD elt "push-url"))]
  else []

/-- The `replace-url` sub-step: save the current page, then replace. -/
def replaceUrlPart (elt : CommandElt) : List Effect :=
  if hasAttr elt "replace-url" then
    [Effect.saveHistory, Effect.replaceUrl (getAttrD elt "replace-url")]
  else []

/-- STEP 6: immediate triggers and server commands, in the source's fixed
order: `trigger`, `location`, `redirect`, `refresh`, `push-url`,
`replace-url`, then the `htmx:afterServerCommand` post-event.  `redirect`,
and `refresh` with a value other than the literal `"false"`, return early. -/
def immediateStage {Dom : Type} (env : Env Dom) (d : Dom) (elt : CommandElt) : ImmOut :=
  let tfx := triggerPart env d elt
  let L := locationPart env elt
  match L.err with
  | some e => ⟨tfx ++ L.fx, L.deferred, some e⟩
  | none =>
      if hasAttr elt "redirect" then
        ⟨tfx ++ L.fx ++ [Effect.redirectTo (getAttrD elt "redirect")], L.deferred, none⟩
      else if hasAttr elt "refresh" && (getAttrD elt "refresh" != "false") then
        ⟨tfx ++ L.fx ++ [Effect.reload], L.deferred, none⟩
      else
        ⟨tfx ++ L.fx ++ pushUrlPart elt ++ replaceUrlPart elt ++
           [Effect.afterServerCommandEvt elt], L.deferred, none⟩

/-- Result of the `try` block's body: accumulated effects, deferred
continuations, resulting document state, and the exception (if thrown). -/
structure BodyOut (Dom : Type) where
  trace : List Effect
  deferred : List Effect
  dom : Dom
  err : Option Err

/-- The body of `processCommandFromElement`'s `try` block: cancelable
pre-event, validation, swap-job gathering, the swap loop with its awaited
swap/settle signals, the unconditional `htmx:afterSwap` notification, the
after-swap and after-settle trigger dispatches, and the immediate phase. -/
def processBody {Dom : Type} (env : Env Dom) (d : Dom) (elt : CommandElt) : BodyOut Dom :=
  let fx0 := [Effect.beforeServerCommandEvt elt]
  if env.cancelBeforeServerCommand elt then ⟨fx0, [], d, none⟩
  else
    match validateCommandElement elt with
    | some ve => ⟨fx0, [], d, some (Err.validation ve)⟩
    | none =>
        let swapStyle := match getAttr elt "swap" with
          | some s => if s == "" then "outerHTML" else s
          | none => "outerHTML"
        let select := getAttr elt "select"
        let g := gatherTarget env d elt
        match g.err with
        | some e => ⟨fx0 ++ g.fx, [], d, some e⟩
        | none =>
            let s := runSwapJobs env d select swapStyle g.jobs
            match s.rejected with
            | some m => ⟨fx0 ++ g.fx ++ s.fx, [], s.dom, some (Err.swapReject m)⟩
            | none =>
                let i := immediateStage env s.dom elt
                ⟨fx0 ++ g.fx ++ s.fx ++ [Effect.afterSwapEvt elt] ++
                   afterSwapTriggerPart env s.dom elt ++ afterSettleTriggerPart env s.dom elt ++
                   i.fx,
                 i.deferred, s.dom, i.err⟩

/-- Result of processing one marker (after the catch) or a marker list. -/
structure PRes (Dom : Type) where
  trace : List Effect
  deferred : List Effect
  dom : Dom

/-- Process a single marker: run the body and catch any exception at the
marker boundary, reporting it through `htmx:serverCommandError`. -/
def processCommandFromElement {Dom : Type} (env : Env Dom) (d : Dom) (elt : CommandElt) :
    PRes Dom :=
  let b := processBody env d elt
  match b.err with
  | none => ⟨b.trace, b.deferred, b.dom⟩
  | some e => ⟨b.trace ++ [Effect.serverCommandErrorEvt e elt], b.deferred, b.dom⟩

/-- The response-level loop: `for (const el of topLevelCommandElements)
await processCommandFromElement(el, ...)` — strictly sequential, each marker
starting from the document state the previous one left behind. -/
def runMarkers {Dom : Type} (env : Env Dom) (d : Dom) : List CommandElt → PRes Dom
  | [] => ⟨[], [], d⟩
  | m :: ms =>
      let r := processCommandFromElement env d m
      let rest := runMarkers env r.dom ms
      ⟨r.trace ++ rest.trace, r.deferred ++ rest.deferred, rest.dom⟩

/-! ### Fragment extraction (source: `transformResponse`, lines 34-74) -/

/-- A node of the parsed response fragment. -/
inductive Node where
  | elem (tag : String) (attrs : List (String × String)) (children : List Node)
  | text (s : String)

/-- Is this node an `<htmx>` command marker? -/
def isHtmxElem : Node → Bool
  | .elem t _ _ => t == "htmx"
  | .text _ => false

/-- Does the forest contain an `<htmx>` marker at any depth
(`fragment.querySelector('htmx')` is non-null)? -/
def anyHtmx : List Node → Bool
  | [] => false
  | .elem t _ cs :: rest => t == "htmx" || anyHtmx cs || anyHtmx rest
  | .text _ :: rest => anyHtmx rest

/-- Number of `<htmx>` markers at any depth
(`fragment.querySelectorAll('htmx').length`). -/
def countAllHtmx : List Node → Nat
  | [] => 0
  | .elem t _ cs :: rest =>
      (if t == "htmx" then 1 else 0) + countAllHtmx cs + countAllHtmx rest
  | .text _ :: rest => countAllHtmx rest

/-- The top-level markers: direct children of the fragment root, in document
order (the `parentNode === fragment` filter). -/
def topLevelHtmx (ns : List Node) : List Node :=
  ns.filter isHtmxElem

/-- Remove every `<htmx>` marker, at any depth, together with its subtree
(`allCommandElements.forEach(el => el.remove())`). -/
def removeHtmx : List Node → List Node
  | [] => []
  | .elem t a cs :: rest =>
      if t == "htmx" then removeHtmx rest
      else .elem t a (removeHtmx cs) :: removeHtmx rest
  | .text s :: rest => .text s :: removeHtmx rest

/-- Is some `<htmx>` marker strictly below the top level (nested inside
another node's content)? -/
def hasNestedHtmx : List Node → Bool
  | [] => false
  | .elem _ _ cs :: rest => anyHtmx cs || hasNestedHtmx rest
  | .text _ :: rest => hasNestedHtmx rest

/-- Number of `<htmx>` markers strictly below the top level. -/
def nestedCountHtmx : List Node → Nat
  | [] => 0
  | .elem _ _ cs :: rest => countAllHtmx cs + nestedCountHtmx rest
  | .text _ :: rest => nestedCountHtmx rest

/-- Escape a character for HTML text serialization. -/
def escChar (c : Char) : String :=
  if c == '<' then "&lt;"
  else if c == '>' then "&gt;"
  else if c == '&' then "&amp;"
  else String.singleton c

/-- Escape a text node for serialization. -/
def escapeText (s : String) : String :=
  String.join (s.data.map escChar)

/-- Serialize one attribute. -/
def attrText (a : String × String) : String :=
  " " ++ a.1 ++ "=\"" ++ escapeText a.2 ++ "\""

/-- Serialize a forest back to an HTML string (`container.innerHTML`). -/
def serializeList : List Node → String
  | [] => ""
  | .elem t a cs :: rest =>
      "<" ++ t ++ String.join (a.map attrText) ++ ">" ++ serializeList cs ++
        "</" ++ t ++ ">" ++ serializeList rest
  | .text s :: rest => escapeText s ++ serializeList rest

/-- View a marker node as a `CommandElt` (its attributes and `innerHTML`). -/
def toCommandElt : Node → CommandElt
  | .elem _ a cs => ⟨a, serializeList cs⟩
  | .text s => ⟨[], s⟩

/-- Result of transforming one response. -/
structure TransformResult (Dom : Type) where
  remainder : String
  processed : List CommandElt
  nestedWarning : Bool
  trace : List Effect
  deferred : List Effect
  dom : Dom

/-- `transformResponse`: empty text or a fragment with no `<htmx>` markers is
returned untouched; otherwise the top-level markers are processed in
document order, a diagnostic is recorded when nested markers are discarded,
every marker is removed, and the remainder is re-serialized.  `parse`
abstracts the host's HTML fragment parser (`api.makeFragment`). -/
def transformResponse {Dom : Type} (env : Env Dom) (d : Dom) (text : String)
    (parse : String → List Node) : TransformResult Dom :=
  if text = "" then ⟨text, [], false, [], [], d⟩
  else
    let frag := parse text
    if anyHtmx frag then
      let top := (topLevelHtmx frag).map toCommandElt
      let warned := decide ((topLevelHtmx frag).length < countAllHtmx frag)
      let r := runMarkers env d top
      ⟨serializeList (removeHtmx frag), top, warned, r.trace, r.deferred, r.dom⟩
    else ⟨text, [], false, [], [], d⟩

/-! ### Effect classifiers (used to state claims about trace shapes) -/

/-- Effects a trigger dispatch can produce. -/
def isDispatchOrWarn : Effect → Bool
  | .dispatched _ _ _ => true
  | .triggerTargetWarn _ => true
  | _ => false

/-- Is the effect a fired event from a trigger payload? -/
def isDispatchedFx : Effect → Bool
  | .dispatched _ _ _ => true
  | _ => false

/-- Effects the synchronous part of the `location` flow can produce. -/
def isLocationFx : Effect → Bool
  | .saveHistory => true
  | .locationAjax _ _ => true
  | _ => false

/-- Effects the immediate phase can produce (never swap-phase effects). -/
def isImmediateFx : Effect → Bool
  | .dispatched _ _ _ => true
  | .triggerTargetWarn _ => true
  | .saveHistory => true
  | .locationAjax _ _ => true
  | .pushUrl _ => true
  | .replaceUrl _ => true
  | .redirectTo _ => true
  | .reload => true
  | .afterServerCommandEvt _ => true
  | _ => false

/-- Number of marker side effects in the deferred (non-awaited) set.  The
ordering claim "marker n's full pipeline, through its navigation and history
side effects, completes before marker n+1 begins" requires every side effect
of a marker to happen inside its own awaited segment, i.e. nothing deferred. -/
def markerPipelineSelfContained {Dom : Type} (env : Env Dom) (d : Dom) (m : CommandElt) : Prop :=
  (processCommandFromElement env d m).deferred = []

/-! ### Concrete fixtures for witnesses and counterexamples -/

/-- A host environment over a trivial document: nothing cancels, selector
lookup misses, JSON.parse always throws, swaps succeed. -/
def env0 : Env Unit :=
  ⟨fun _ => false, fun _ _ => FindResult.notFound, fun _ => none,
   fun _ _ => false, fun _ _ => true, fun _ _ => none, fun d _ => d⟩

/-- An environment whose JSON.parse knows two inputs and whose selector
lookup always succeeds. -/
def envJ : Env Unit :=
  ⟨fun _ => false, fun _ _ => FindResult.found,
   fun s =>
     if s = "a,b" then none
     else if s = "objTrig" then
       some (Json.obj [("a", Json.obj [("x", Json.num 1)])])
     else if s = "tgtTrig" then
       some (Json.obj [("ev", Json.obj [("x", Json.num 2), ("target", Json.str "#z")])])
     else none,
   fun _ _ => false, fun _ _ => true, fun _ _ => none, fun d _ => d⟩

/-- A marker with only an unknown attribute (no command attribute at all). -/
def eltFoo : CommandElt := ⟨[("foo", "1")], ""⟩

/-- A marker with one unknown attribute next to a valid one, and `swap`
without `target`. -/
def eltMix : CommandElt := ⟨[("swap", "innerHTML"), ("bad", "1")], ""⟩

/-- A marker with only `trigger-after-swap` (valid; no target, no swap job). -/
def elt4 : CommandElt := ⟨[("trigger-after-swap", "x")], ""⟩

/-- A marker with a `location` command. -/
def mLoc : CommandElt := ⟨[("location", "/p")], ""⟩

/-- A marker with a plain `trigger` command. -/
def mTrig : CommandElt := ⟨[("trigger", "t")], ""⟩

/-- A marker with `trigger`, `redirect` and `push-url`. -/
def eltRed : CommandElt := ⟨[("trigger", "t"), ("redirect", "/r"), ("push-url", "/u")], ""⟩

/-- A marker with a target selector and a trigger. -/
def eltTgt : CommandElt := ⟨[("target", "#x"), ("trigger", "t"), ("push-url", "/n")], ""⟩

/-- A marker whose `target` attribute is present but empty. -/
def eltET : CommandElt := ⟨[("target", ""), ("swap", "innerHTML")], ""⟩

/-- A fragment with one top-level marker and one marker nested in a div. -/
def frag8 : List Node :=
  [Node.elem "htmx" [("trigger", "t")] [],
   Node.elem "div" [] [Node.elem "htmx" [("trigger", "u")] [Node.text "inner"]]]

/-! ## Helper lemmas -/

theorem runMarkers_cons {Dom : Type} (env : Env Dom) (d : Dom) (m : CommandElt)
    (ms : List CommandElt) :
    runMarkers env d (m :: ms) =
      ⟨(processCommandFromElement env d m).trace ++
         (runMarkers env (processCommandFromElement env d m).dom ms).trace,
       (processCommandFromElement env d m).deferred ++
         (runMarkers env (processCommandFromElement env d m).dom ms).deferred,
       (runMarkers env (processCommandFromElement env d m).dom ms).dom⟩ := rfl

theorem processCommandFromElement_err {Dom : Type} (env : Env Dom) (d : Dom)
    (elt : CommandElt) (e : Err) (hb : (processBody env d elt).err = some e) :
    processCommandFromElement env d elt =
      ⟨(processBody env d elt).trace ++ [Effect.serverCommandErrorEvt e elt],
       (processBody env d elt).deferred, (processBody env d elt).dom⟩ := by
  simp only [processCommandFromElement, hb]

theorem processCommandFromElement_ok {Dom : Type} (env : Env Dom) (d : Dom)
    (elt : CommandElt) (hb : (processBody env d elt).err = none) :
    processCommandFromElement env d elt =
      ⟨(processBody env d elt).trace, (processBody env d elt).deferred,
       (processBody env d elt).dom⟩ := by
  simp only [processCommandFromElement, hb]

theorem immediateStage_deferred {Dom : Type} (env : Env Dom) (d : Dom) (elt : CommandElt) :
    (immediateStage env d elt).deferred = (locationPart env elt).deferred := by
  unfold immediateStage
  cases h : (locationPart env elt).err
  · simp only [h]
    split
    · rfl
    · split <;> rfl
  · simp only [h]

theorem processBody_deferred {Dom : Type} (env : Env Dom) (d : Dom) (elt : CommandElt)
    (hl : hasAttr elt "location" = false) :
    (processBody env d elt).deferred = [] := by
  have hloc : (locationPart env elt).deferred = [] := by
    unfold locationPart; rw [hl]; rfl
  simp only [processBody]
  split
  · rfl
  split
  · rfl
  split
  · rfl
  split
  · rfl
  simp [immediateStage_deferred, hloc]

theorem dispatchOrWarn_isImmediate (e : Effect) (h : isDispatchOrWarn e = true) :
    isImmediateFx e = true := by
  cases e <;> simp_all [isDispatchOrWarn, isImmediateFx]

theorem locationFx_isImmediate (e : Effect) (h : isLocationFx e = true) :
    isImmediateFx e = true := by
  cases e <;> simp_all [isLocationFx, isImmediateFx]

theorem triggerKeyEffects_mem_shape {Dom : Type} (env : Env Dom) (d : Dom)
    (kv : String × Json) :
    ∀ e ∈ (triggerKeyEffects env d kv).1, isDispatchOrWarn e = true := by
  intro e he
  obtain ⟨k, j⟩ := kv
  cases j with
  | obj gs =>
      simp only [triggerKeyEffects] at he
      split at he
      next tv _ =>
        split at he
        · split at he
          · simp at he; subst he; rfl
          · simp at he; rcases he with rfl | rfl <;> rfl
          · simp at he
        · simp at he; subst he; rfl
      next => simp at he; subst he; rfl
  | str s => simp only [triggerKeyEffects] at he; simp at he; subst he; rfl
  | num n => simp only [triggerKeyEffects] at he; simp at he; subst he; rfl
  | bool b => simp only [triggerKeyEffects] at he; simp at he; subst he; rfl
  | null => simp only [triggerKeyEffects] at he; simp at he; subst he; rfl
  | arr xs => simp only [triggerKeyEffects] at he; simp at he; subst he; rfl

theorem runTriggerKeys_mem_shape {Dom : Type} (env : Env Dom) (d : Dom)
    (fs : List (String × Json)) :
    ∀ e ∈ (runTriggerKeys env d fs).1, isDispatchOrWarn e = true := by
  induction fs with
  | nil => intro e he; simp [runTriggerKeys] at he
  | cons kv rest ih =>
      intro e he
      unfold runTriggerKeys at he
      split at he
      next fx e' hk =>
        rw [show fx = (triggerKeyEffects env d kv).1 by rw [hk]] at he
        exact triggerKeyEffects_mem_shape env d kv e he
      next fx hk =>
        simp only [List.mem_append] at he
        rcases he with he | he
        · rw [show fx = (triggerKeyEffects env d kv).1 by rw [hk]] at he
          exact triggerKeyEffects_mem_shape env d kv e he
        · exact ih e he

theorem triggerFallback_mem_shape (v : String) :
    ∀ e ∈ triggerFallback v, isDispatchOrWarn e = true := by
  intro e he
  simp only [triggerFallback, List.mem_map] at he
  obtain ⟨n, _, rfl⟩ := he
  rfl

theorem handleTriggerAttribute_mem_shape {Dom : Type} (env : Env Dom) (d : Dom)
    (v : String) :
    ∀ e ∈ handleTriggerAttribute env d v, isDispatchOrWarn e = true := by
  intro e he
  unfold handleTriggerAttribute at he
  split at he
  · split at he
    next fx hk =>
      rw [show fx = (runTriggerKeys env d (forInKeys _)).1 by rw [hk]] at he
      exact runTriggerKeys_mem_shape env d _ e he
    next fx e' hk =>
      simp only [List.mem_append] at he
      rcases he with he | he
      · rw [show fx = (runTriggerKeys env d (forInKeys _)).1 by rw [hk]] at he
        exact runTriggerKeys_mem_shape env d _ e he
      · exact triggerFallback_mem_shape v e he
  · exact triggerFallback_mem_shape v e he

theorem triggerPart_mem_shape {Dom : Type} (env : Env Dom) (d : Dom) (elt : CommandElt) :
    ∀ e ∈ triggerPart env d elt, isDispatchOrWarn e = true := by
  intro e he
  unfold triggerPart at he
  split at he
  · exact handleTriggerAttribute_mem_shape env d _ e he
  · simp at he

theorem afterSwapTriggerPart_mem_shape {Dom : Type} (env : Env Dom) (d : Dom)
    (elt : CommandElt) :
    ∀ e ∈ afterSwapTriggerPart env d elt, isDispatchOrWarn e = true := by
  intro e he
  unfold afterSwapTriggerPart at he
  split at he
  · exact handleTriggerAttribute_mem_shape env d _ e he
  · simp at he

theorem afterSettleTriggerPart_mem_shape {Dom : Type} (env : Env Dom) (d : Dom)
    (elt : CommandElt) :
    ∀ e ∈ afterSettleTriggerPart env d elt, isDispatchOrWarn e = true := by
  intro e he
  unfold afterSettleTriggerPart at he
  split at he
  · exact handleTriggerAttribute_mem_shape env d _ e he
  · simp at he

theorem locationPart_fx_shape {Dom : Type} (env : Env Dom) (elt : CommandElt) :
    ∀ e ∈ (locationPart env elt).fx, isLocationFx e = true := by
  intro e he
  unfold locationPart at he
  split at he
  · unfold handleLocationAttribute at he
    split at he
    · split at he
      · simp at he
      · simp at he; rcases he with rfl | rfl <;> rfl
    · simp at he; rcases he with rfl | rfl <;> rfl
  · simp at he

theorem pushUrlPart_mem_shape (elt : CommandElt) :
    ∀ e ∈ pushUrlPart elt, isImmediateFx e = true := by
  intro e he
  unfold pushUrlPart at he
  split at he
  · simp at he; rcases he with rfl | rfl <;> rfl
  · simp at he

theorem replaceUrlPart_mem_shape (elt : CommandElt) :
    ∀ e ∈ replaceUrlPart elt, isImmediateFx e = true := by
  intro e he
  unfold replaceUrlPart at he
  split at he
  · simp at he; rcases he with rfl | rfl <;> rfl
  · simp at he

theorem immediateStage_fx_eq {Dom : Type} (env : Env Dom) (d : Dom) (elt : CommandElt) :
    ∃ tail,
      (immediateStage env d elt).fx = triggerPart env d elt ++ (locationPart env elt).fx ++ tail ∧
      (tail = [] ∨ tail = [Effect.redirectTo (getAttrD elt "redirect")] ∨ tail = [Effect.reload] ∨
       tail = pushUrlPart elt ++ replaceUrlPart elt ++ [Effect.afterServerCommandEvt elt]) := by
  unfold immediateStage
  cases h : (locationPart env elt).err
  · simp only [h]
    split
    · exact ⟨_, by simp, Or.inr (Or.inl rfl)⟩
    · split
      · exact ⟨_, by simp, Or.inr (Or.inr (Or.inl rfl))⟩
      · exact ⟨_, by simp, Or.inr (Or.inr (Or.inr rfl))⟩
  · simp only [h]
    exact ⟨[], by simp, Or.inl rfl⟩

theorem immediateStage_fx_shape {Dom : Type} (env : Env Dom) (d : Dom) (elt : CommandElt) :
    ∀ e ∈ (immediateStage env d elt).fx, isImmediateFx e = true := by
  intro e he
  obtain ⟨tail, heq, htail⟩ := immediateStage_fx_eq env d elt
  rw [heq] at he
  simp only [List.mem_append] at he
  rcases he with (he | he) | he
  · exact dispatchOrWarn_isImmediate e (triggerPart_mem_shape env d elt e he)
  · exact locationFx_isImmediate e (locationPart_fx_shape env elt e he)
  · rcases htail with rfl | rfl | rfl | rfl
    · simp at he
    · simp at he; subst he; rfl
    · simp at he; subst he; rfl
    · simp only [List.mem_append] at he
      rcases he with (he | he) | he
      · exact pushUrlPart_mem_shape elt e he
      · exact replaceUrlPart_mem_shape elt e he
      · simp at he; subst he; rfl

theorem processCommandFromElement_deferred {Dom : Type} (env : Env Dom) (d : Dom)
    (elt : CommandElt) :
    (processCommandFromElement env d elt).deferred = (processBody env d elt).deferred := by
  unfold processCommandFromElement
  cases h : (processBody env d elt).err <;> simp [h]

theorem runTriggerKeys_cons_err {Dom : Type} {env : Env Dom} {d : Dom}
    {kv : String × Json} {fx : List Effect} {e : Err} (rest : List (String × Json))
    (hk : triggerKeyEffects env d kv = (fx, some e)) :
    runTriggerKeys env d (kv :: rest) = (fx, some e) := by
  have h0 : runTriggerKeys env d (kv :: rest) =
      (match triggerKeyEffects env d kv with
        | (fx, some e) => (fx, some e)
        | (fx, none) => (fx ++ (runTriggerKeys env d rest).1, (runTriggerKeys env d rest).2)) :=
    rfl
  rw [h0, hk]

theorem runTriggerKeys_cons_ok {Dom : Type} {env : Env Dom} {d : Dom}
    {kv : String × Json} {fx : List Effect} (rest : List (String × Json))
    (hk : triggerKeyEffects env d kv = (fx, none)) :
    runTriggerKeys env d (kv :: rest) =
      (fx ++ (runTriggerKeys env d rest).1, (runTriggerKeys env d rest).2) := by
  have h0 : runTriggerKeys env d (kv :: rest) =
      (match triggerKeyEffects env d kv with
        | (fx, some e) => (fx, some e)
        | (fx, none) => (fx ++ (runTriggerKeys env d rest).1, (runTriggerKeys env d rest).2)) :=
    rfl
  rw [h0, hk]

theorem runTriggerKeys_ok {Dom : Type} (env : Env Dom) (d : Dom) :
    ∀ fs, (runTriggerKeys env d fs).2 = none →
      (runTriggerKeys env d fs).1 = fs.flatMap (fun kv => (triggerKeyEffects env d kv).1) ∧
      ∀ kv ∈ fs, (triggerKeyEffects env d kv).2 = none := by
  intro fs
  induction fs with
  | nil => intro _; exact ⟨rfl, by simp⟩
  | cons kv rest ih =>
      intro h
      rcases hk : triggerKeyEffects env d kv with ⟨fx, oe⟩
      cases oe with
      | some e => rw [runTriggerKeys_cons_err rest hk] at h; simp at h
      | none =>
          rw [runTriggerKeys_cons_ok rest hk] at h
          obtain ⟨h1, h2⟩ := ih h
          rw [runTriggerKeys_cons_ok rest hk]
          refine ⟨?_, ?_⟩
          · simp only [List.flatMap_cons, h1]
            rw [show (triggerKeyEffects env d kv).1 = fx by rw [hk]]
          · intro kv' hkv'
            rcases List.mem_cons.mp hkv' with rfl | hkv'
            · rw [hk]
            · exact h2 kv' hkv'

theorem triggerKeyEffects_ok_filter {Dom : Type} (env : Env Dom) (d : Dom)
    (kv : String × Json) (hk2 : (triggerKeyEffects env d kv).2 = none) :
    ∃ tgt det, (triggerKeyEffects env d kv).1.filter isDispatchedFx =
      [Effect.dispatched tgt kv.1 det] := by
  obtain ⟨k, j⟩ := kv
  cases j with
  | obj gs =>
      rcases hlk : List.lookup "target" gs with _ | tv
      · exact ⟨EvtTarget.body, some (Json.obj gs),
          by simp [triggerKeyEffects, hlk, List.filter, isDispatchedFx]⟩
      · by_cases htr : jsTruthy tv = true
        · rcases hf : env.find d (jsToString tv) with _ | _ | m
          · exact ⟨EvtTarget.selector (jsToString tv), some (Json.obj (removeField "target" gs)),
              by simp [triggerKeyEffects, hlk, htr, hf, List.filter, isDispatchedFx]⟩
          · exact ⟨EvtTarget.body, some (Json.obj (removeField "target" gs)),
              by simp [triggerKeyEffects, hlk, htr, hf, List.filter, isDispatchedFx]⟩
          · exfalso
            simp [triggerKeyEffects, hlk, htr, hf] at hk2
        · exact ⟨EvtTarget.body, some (Json.obj gs),
            by simp [triggerKeyEffects, hlk, htr, List.filter, isDispatchedFx]⟩
  | str s => exact ⟨EvtTarget.body, some (Json.str s),
      by simp [triggerKeyEffects, List.filter, isDispatchedFx]⟩
  | num n => exact ⟨EvtTarget.body, some (Json.num n),
      by simp [triggerKeyEffects, List.filter, isDispatchedFx]⟩
  | bool b => exact ⟨EvtTarget.body, some (Json.bool b),
      by simp [triggerKeyEffects, List.filter, isDispatchedFx]⟩
  | null => exact ⟨EvtTarget.body, some Json.null,
      by simp [triggerKeyEffects, List.filter, isDispatchedFx]⟩
  | arr xs => exact ⟨EvtTarget.body, some (Json.arr xs),
      by simp [triggerKeyEffects, List.filter, isDispatchedFx]⟩

theorem triggerKeyEffects_target_found {Dom : Type} (env : Env Dom) (d : Dom)
    (k : String) (gs : List (String × Json)) (tv : Json)
    (hlk : List.lookup "target" gs = some tv) (htr : jsTruthy tv = true)
    (hf : env.find d (jsToString tv) = FindResult.found) :
    triggerKeyEffects env d (k, Json.obj gs) =
      ([Effect.dispatched (EvtTarget.selector (jsToString tv)) k
          (some (Json.obj (removeField "target" gs)))], none) := by
  simp [triggerKeyEffects, hlk, htr, hf]

/-! ### Lemmas about the fragment tree -/

theorem anyHtmx_removeHtmx : (ns : List Node) → anyHtmx (removeHtmx ns) = false
  | [] => by simp [removeHtmx, anyHtmx]
  | .elem t a cs :: rest => by
      by_cases h : (t == "htmx") = true
      · simp [removeHtmx, h, anyHtmx_removeHtmx rest]
      · simp only [removeHtmx, if_neg h, anyHtmx]
        simp [anyHtmx_removeHtmx cs, anyHtmx_removeHtmx rest]
        simpa using h
  | .text s :: rest => by simp [removeHtmx, anyHtmx, anyHtmx_removeHtmx rest]

theorem countAllHtmx_split : (ns : List Node) →
    countAllHtmx ns = (topLevelHtmx ns).length + nestedCountHtmx ns
  | [] => by simp [countAllHtmx, topLevelHtmx, nestedCountHtmx]
  | .elem t a cs :: rest => by
      by_cases h : (t == "htmx") = true <;>
        simp [countAllHtmx, topLevelHtmx, nestedCountHtmx, isHtmxElem, List.filter_cons, h,
          countAllHtmx_split rest, topLevelHtmx] <;> omega
  | .text s :: rest => by
      simp [countAllHtmx, topLevelHtmx, nestedCountHtmx, isHtmxElem, List.filter_cons,
        countAllHtmx_split rest]

theorem anyHtmx_iff_countPos : (ns : List Node) → (anyHtmx ns = true ↔ 0 < countAllHtmx ns)
  | [] => by simp [anyHtmx, countAllHtmx]
  | .elem t a cs :: rest => by
      by_cases h : (t == "htmx") = true
      · simp [anyHtmx, countAllHtmx, h]
      · simp [anyHtmx, countAllHtmx, h, Bool.or_eq_true, anyHtmx_iff_countPos cs,
          anyHtmx_iff_countPos rest]
  | .text s :: rest => by simp [anyHtmx, countAllHtmx, anyHtmx_iff_countPos rest]

theorem hasNestedHtmx_iff_countPos : (ns : List Node) →
    (hasNestedHtmx ns = true ↔ 0 < nestedCountHtmx ns)
  | [] => by simp [hasNestedHtmx, nestedCountHtmx]
  | .elem t a cs :: rest => by
      simp [hasNestedHtmx, nestedCountHtmx, Bool.or_eq_true, anyHtmx_iff_countPos cs,
        hasNestedHtmx_iff_countPos rest]
  | .text s :: rest => by simp [hasNestedHtmx, nestedCountHtmx, hasNestedHtmx_iff_countPos rest]

theorem warned_eq_hasNested (ns : List Node) :
    decide ((topLevelHtmx ns).length < countAllHtmx ns) = hasNestedHtmx ns := by
  rw [countAllHtmx_split ns]
  cases hb : hasNestedHtmx ns
  · simp only [decide_eq_false_iff_not]
    have h2 := hasNestedHtmx_iff_countPos ns
    rw [hb] at h2
    simp at h2
    omega
  · simp only [decide_eq_true_eq]
    have h2 := (hasNestedHtmx_iff_countPos ns).mp hb
    omega

/-! ## Claims -/

/-- C1 (amended): markers of one response are processed strictly
sequentially — all synchronous (awaited) effects of marker n, including its
swap, settle, redirect/refresh and push-url/replace-url history mutations,
precede every effect of marker n+1, and the document state is threaded from
one marker to the next; moreover, for a marker without a `location`
attribute nothing escapes its awaited segment (no deferred effects).  The
original claim fails for `location` markers, whose fetch continuation and
history push are only scheduled (see `location_push_escapes_pipeline`). -/
theorem runMarkers_strictly_sequential_sync {Dom : Type} (env : Env Dom) (d : Dom)
    (m : CommandElt) (ms : List CommandElt) :
    (runMarkers env d (m :: ms)).trace =
      (processCommandFromElement env d m).trace ++
        (runMarkers env (processCommandFromElement env d m).dom ms).trace ∧
    (hasAttr m "location" = false → (processCommandFromElement env d m).deferred = []) := by
  refine ⟨rfl, fun hl => ?_⟩
  rw [processCommandFromElement_deferred]
  exact processBody_deferred env d m hl

/-- Witness for C1's amended theorem at a concrete non-`location` marker. -/
theorem runMarkers_strictly_sequential_sync_witness :
    hasAttr mTrig "location" = false ∧
    (runMarkers env0 () [mTrig, elt4]).trace =
      (processCommandFromElement env0 () mTrig).trace ++
        (runMarkers env0 (processCommandFromElement env0 () mTrig).dom [elt4]).trace ∧
    (processCommandFromElement env0 () mTrig).deferred = [] :=
  ⟨rfl, (runMarkers_strictly_sequential_sync env0 () mTrig [elt4]).1,
   (runMarkers_strictly_sequential_sync env0 () mTrig [elt4]).2 rfl⟩

/-- C1 counterexample: a marker carrying `location` schedules its history
push (`pushUrlIntoHistory` inside `htmx.ajax(...).then(...)`) without
awaiting it, so its pipeline is not self-contained: the push is still
pending when the next marker starts. -/
theorem location_push_escapes_pipeline :
    (processCommandFromElement env0 () mLoc).deferred = [Effect.pushUrl (some "/p")] ∧
    ¬ markerPipelineSelfContained env0 () mLoc := by
  have h : (processCommandFromElement env0 () mLoc).deferred =
      [Effect.pushUrl (some "/p")] := rfl
  refine ⟨h, fun hc => ?_⟩
  unfold markerPipelineSelfContained at hc
  rw [h] at hc
  simp at hc

/-- C2: any exception thrown in the body of `processCommandFromElement`
(validation, target lookup, swap, navigation) is caught at the marker
boundary and reported through `htmx:serverCommandError` with the error and
the command element, and the response loop continues with the remaining
markers. -/
theorem marker_error_isolated {Dom : Type} (env : Env Dom) (d : Dom) (elt : CommandElt)
    (ms : List CommandElt) (e : Err) (hb : (processBody env d elt).err = some e) :
    (processCommandFromElement env d elt).trace =
      (processBody env d elt).trace ++ [Effect.serverCommandErrorEvt e elt] ∧
    (runMarkers env d (elt :: ms)).trace =
      (processCommandFromElement env d elt).trace ++
        (runMarkers env (processCommandFromElement env d elt).dom ms).trace := by
  constructor
  · rw [processCommandFromElement_err env d elt e hb]
  · rfl

/-- Witness for C2: a marker whose validation throws is reported and the
next marker still runs. -/
theorem marker_error_isolated_witness :
    (processBody env0 () eltFoo).err =
      some (Err.validation ValidationError.noCommandAttributes) ∧
    (processCommandFromElement env0 () eltFoo).trace =
      (processBody env0 () eltFoo).trace ++
        [Effect.serverCommandErrorEvt (Err.validation ValidationError.noCommandAttributes)
           eltFoo] ∧
    (runMarkers env0 () [eltFoo, mTrig]).trace =
      (processCommandFromElement env0 () eltFoo).trace ++
        (runMarkers env0 (processCommandFromElement env0 () eltFoo).dom [mTrig]).trace :=
  ⟨rfl, (marker_error_isolated env0 () eltFoo [mTrig] _ rfl).1,
   (marker_error_isolated env0 () eltFoo [mTrig] _ rfl).2⟩

/-- C8: nested markers are never executed — only direct children of the
fragment root are handed to the executor — every marker at any depth is
removed before serialization, so the remainder tree contains no marker at
all, and the diagnostic fires exactly when nested markers were discarded. -/
theorem nested_markers_never_executed_and_removed {Dom : Type} (env : Env Dom) (d : Dom)
    (text : String) (parse : String → List Node)
    (hne : ¬ text = "") (hhx : anyHtmx (parse text) = true) :
    (transformResponse env d text parse).processed =
      (topLevelHtmx (parse text)).map toCommandElt ∧
    anyHtmx (removeHtmx (parse text)) = false ∧
    (transformResponse env d text parse).remainder =
      serializeList (removeHtmx (parse text)) ∧
    (transformResponse env d text parse).nestedWarning = hasNestedHtmx (parse text) ∧
    (transformResponse env d text parse).trace =
      (runMarkers env d ((topLevelHtmx (parse text)).map toCommandElt)).trace := by
  have htr : transformResponse env d text parse =
      ⟨serializeList (removeHtmx (parse text)),
       (topLevelHtmx (parse text)).map toCommandElt,
       decide ((topLevelHtmx (parse text)).length < countAllHtmx (parse text)),
       (runMarkers env d ((topLevelHtmx (parse text)).map toCommandElt)).trace,
       (runMarkers env d ((topLevelHtmx (parse text)).map toCommandElt)).deferred,
       (runMarkers env d ((topLevelHtmx (parse text)).map toCommandElt)).dom⟩ := by
    unfold transformResponse
    rw [if_neg hne]
    simp [hhx]
  rw [htr]
  exact ⟨rfl, anyHtmx_removeHtmx (parse text), rfl, warned_eq_hasNested (parse text), rfl⟩

/-- Witness for C8 on a fragment with one top-level and one nested marker. -/
theorem nested_markers_never_executed_and_removed_witness :
    anyHtmx frag8 = true ∧ hasNestedHtmx frag8 = true ∧
    (transformResponse env0 () "x" (fun _ => frag8)).processed =
      (topLevelHtmx frag8).map toCommandElt ∧
    anyHtmx (removeHtmx frag8) = false ∧
    (transformResponse env0 () "x" (fun _ => frag8)).nestedWarning = hasNestedHtmx frag8 := by
  have hhx : anyHtmx frag8 = true := by simp [frag8, anyHtmx]
  have h := nested_markers_never_executed_and_removed env0 () "x" (fun _ => frag8)
    (by simp) hhx
  exact ⟨hhx, by simp [frag8, hasNestedHtmx, anyHtmx], h.1, h.2.1, h.2.2.2.1⟩

/-- C9: an empty response, or one whose parsed fragment contains no command
marker, is returned byte-identical, with no markers extracted, no warning,
no effects and no document change. -/
theorem no_marker_response_unchanged {Dom : Type} (env : Env Dom) (d : Dom)
    (text : String) (parse : String → List Node)
    (h : text = "" ∨ anyHtmx (parse text) = false) :
    transformResponse env d text parse = ⟨text, [], false, [], [], d⟩ := by
  unfold transformResponse
  rcases h with h | h
  · rw [if_pos h]
  · by_cases ht : text = ""
    · rw [if_pos ht]
    · rw [if_neg ht]
      simp [h]

/-- Witness for C9 at a marker-free fragment. -/
theorem no_marker_response_unchanged_witness :
    anyHtmx [Node.elem "p" [] [Node.text "x"]] = false ∧
    transformResponse env0 () "<p>x</p>" (fun _ => [Node.elem "p" [] [Node.text "x"]]) =
      ⟨"<p>x</p>", [], false, [], [], ()⟩ := by
  have h : anyHtmx [Node.elem "p" [] [Node.text "x"]] = false := by simp [anyHtmx]
  exact ⟨h, no_marker_response_unchanged env0 () _ _ (Or.inr h)⟩

/-- Everything after the swap loop (after-swap and after-settle trigger
dispatches and the immediate phase) produces only immediate-class effects. -/
theorem postSwap_parts_shape {Dom : Type} (env : Env Dom) (d : Dom) (elt : CommandElt)
    (e : Effect)
    (he : e ∈ afterSwapTriggerPart env d elt ++
            (afterSettleTriggerPart env d elt ++ (immediateStage env d elt).fx)) :
    isImmediateFx e = true := by
  rcases List.mem_append.mp he with h | h
  · exact dispatchOrWarn_isImmediate _ (afterSwapTriggerPart_mem_shape env d elt e h)
  · rcases List.mem_append.mp h with h | h
    · exact dispatchOrWarn_isImmediate _ (afterSettleTriggerPart_mem_shape env d elt e h)
    · exact immediateStage_fx_shape env d elt e h

/-- C4 counterexample: a marker with `trigger-after-swap` but no `target`
produces no swap job, yet the `htmx:afterSwap` notification (line 175) still
fires and the trigger-after-swap payload is still dispatched — the
after-swap phase is not skipped. -/
theorem after_swap_fires_without_swap_job :
    (processCommandFromElement env0 () elt4).trace =
      [Effect.beforeServerCommandEvt elt4, Effect.afterSwapEvt elt4,
       Effect.dispatched EvtTarget.body "x" none, Effect.afterServerCommandEvt elt4] ∧
    Effect.afterSwapEvt elt4 ∈ (processCommandFromElement env0 () elt4).trace ∧
    Effect.dispatched EvtTarget.body "x" none ∈
      (processCommandFromElement env0 () elt4).trace := by
  have h : (processCommandFromElement env0 () elt4).trace =
      [Effect.beforeServerCommandEvt elt4, Effect.afterSwapEvt elt4,
       Effect.dispatched EvtTarget.body "x" none, Effect.afterServerCommandEvt elt4] := rfl
  refine ⟨h, ?_, ?_⟩ <;> rw [h] <;> simp

/-- C4 (amended): a marker with no `target` attribute produces no swap job
and no swap-phase effect, and its awaits resolve immediately — but the
after-swap notification still fires and any `trigger-after-swap` payload is
still dispatched (the phases collapse, they are not skipped). -/
theorem no_swap_job_after_phases_still_fire {Dom : Type} (env : Env Dom) (d : Dom)
    (elt : CommandElt)
    (hc : env.cancelBeforeServerCommand elt = false)
    (hv : validateCommandElement elt = none)
    (ht : getAttr elt "target" = none) :
    (processBody env d elt).trace =
      Effect.beforeServerCommandEvt elt :: Effect.afterSwapEvt elt ::
        (afterSwapTriggerPart env d elt ++
          (afterSettleTriggerPart env d elt ++ (immediateStage env d elt).fx)) ∧
    Effect.afterSwapEvt elt ∈ (processBody env d elt).trace ∧
    (∀ job sel st, Effect.swapApplied job sel st ∉ (processBody env d elt).trace) ∧
    (hasAttr elt "trigger-after-swap" = true →
      ∀ e ∈ handleTriggerAttribute env d (getAttrD elt "trigger-after-swap"),
        e ∈ (processBody env d elt).trace) := by
  have hg : gatherTarget env d elt = ⟨[], [], none⟩ := by
    unfold gatherTarget; rw [ht]
  have h1 : (processBody env d elt).trace =
      Effect.beforeServerCommandEvt elt :: Effect.afterSwapEvt elt ::
        (afterSwapTriggerPart env d elt ++
          (afterSettleTriggerPart env d elt ++ (immediateStage env d elt).fx)) := by
    simp [processBody, hc, hv, hg, runSwapJobs]
  refine ⟨h1, ?_, ?_, ?_⟩
  · rw [h1]; simp
  · intro job sel st hmem
    rw [h1] at hmem
    simp only [List.mem_cons] at hmem
    rcases hmem with hm | hm | hm
    · exact Effect.noConfusion hm
    · exact Effect.noConfusion hm
    · have := postSwap_parts_shape env d elt _ hm
      simp [isImmediateFx] at this
  · intro hta e he
    have htas : afterSwapTriggerPart env d elt =
        handleTriggerAttribute env d (getAttrD elt "trigger-after-swap") := by
      unfold afterSwapTriggerPart; rw [hta]; rfl
    rw [h1]
    simp only [List.mem_cons, List.mem_append]
    right; right; left
    rw [htas]
    exact he

/-- Witness for C4's amended theorem. -/
theorem no_swap_job_after_phases_still_fire_witness :
    validateCommandElement elt4 = none ∧ getAttr elt4 "target" = none ∧
    (processBody env0 () elt4).trace =
      Effect.beforeServerCommandEvt elt4 :: Effect.afterSwapEvt elt4 ::
        (afterSwapTriggerPart env0 () elt4 ++
          (afterSettleTriggerPart env0 () elt4 ++ (immediateStage env0 () elt4).fx)) ∧
    Effect.afterSwapEvt elt4 ∈ (processBody env0 () elt4).trace :=
  ⟨rfl, rfl, (no_swap_job_after_phases_still_fire env0 () elt4 rfl rfl rfl).1,
   (no_swap_job_after_phases_still_fire env0 () elt4 rfl rfl rfl).2.1⟩

/-- C5 counterexample: a marker whose only attribute is unknown fails the
"no command attributes" check, which throws immediately on its own — the
unknown-attribute violation for `foo` is not collected into the raised
error, contradicting "never failing fast". -/
theorem no_command_attr_error_fails_fast :
    validateCommandElement eltFoo = some ValidationError.noCommandAttributes ∧
    validateCommandElement eltFoo ≠
      some (ValidationError.collected [ValidationIssue.unknownAttribute "foo"]) :=
  ⟨rfl, by decide⟩

/-- C5 (amended): when at least one enumerated attribute is present, the
validator does collect every unknown-attribute violation together with the
swap/select-without-target violation into one error, and succeeds exactly
when there is no violation.  When no enumerated attribute is present it
instead throws the dedicated "no command attributes" error immediately,
without collecting the other violations. -/
theorem validation_collects_with_command_attr (elt : CommandElt)
    (hc : elt.attrs.any (fun a => VALID_COMMAND_ATTRIBUTES.contains a.1) = true) :
    (∀ n v, (n, v) ∈ elt.attrs → VALID_COMMAND_ATTRIBUTES.contains n = false →
       ∃ issues, validateCommandElement elt = some (ValidationError.collected issues) ∧
         ValidationIssue.unknownAttribute n ∈ issues) ∧
    (((hasAttr elt "swap" || hasAttr elt "select") && !(hasAttr elt "target")) = true →
       ∃ issues, validateCommandElement elt = some (ValidationError.collected issues) ∧
         ValidationIssue.swapOrSelectWithoutTarget ∈ issues) ∧
    (validateCommandElement elt = none ↔
       (∀ n v, (n, v) ∈ elt.attrs → VALID_COMMAND_ATTRIBUTES.contains n = true) ∧
       ((hasAttr elt "swap" || hasAttr elt "select") && !(hasAttr elt "target")) = false) := by
  have hval : validateCommandElement elt =
      (if (unknownIssues elt ++ comboIssues elt).isEmpty then none
       else some (ValidationError.collected (unknownIssues elt ++ comboIssues elt))) := by
    unfold validateCommandElement unknownIssues comboIssues
    rw [hc]
    rfl
  have memU : ∀ n v, (n, v) ∈ elt.attrs → VALID_COMMAND_ATTRIBUTES.contains n = false →
      ValidationIssue.unknownAttribute n ∈ unknownIssues elt := by
    intro n v hmem hbad
    refine List.mem_filterMap.mpr ⟨(n, v), hmem, ?_⟩
    show (if VALID_COMMAND_ATTRIBUTES.contains n then none
          else some (ValidationIssue.unknownAttribute n)) =
      some (ValidationIssue.unknownAttribute n)
    rw [hbad]
    rfl
  have emptyFalse : ∀ {x : ValidationIssue} {l : List ValidationIssue},
      x ∈ l → l.isEmpty = false := by
    intro x l hx
    cases l
    · simp at hx
    · rfl
  refine ⟨?_, ?_, ?_⟩
  · intro n v hmem hbad
    have hAllMem := List.mem_append_left (comboIssues elt) (memU n v hmem hbad)
    rw [hval, emptyFalse hAllMem]
    exact ⟨_, by simp, hAllMem⟩
  · intro hcb
    have hCmem : ValidationIssue.swapOrSelectWithoutTarget ∈
        unknownIssues elt ++ comboIssues elt := by
      apply List.mem_append_right
      unfold comboIssues
      rw [hcb]
      simp
    rw [hval, emptyFalse hCmem]
    exact ⟨_, by simp, hCmem⟩
  · rw [hval]
    constructor
    · intro h
      by_cases hE : (unknownIssues elt ++ comboIssues elt).isEmpty = true
      · have hnil : unknownIssues elt ++ comboIssues elt = [] := by
          cases hl : unknownIssues elt ++ comboIssues elt
          · rfl
          · rw [hl] at hE; simp at hE
        have hUC := List.append_eq_nil.mp hnil
        constructor
        · intro n v hmem
          by_contra hbad
          have hbad' : VALID_COMMAND_ATTRIBUTES.contains n = false := by
            simpa using hbad
          have := memU n v hmem hbad'
          rw [hUC.1] at this
          simp at this
        · by_contra hcb
          have hcb' : ((hasAttr elt "swap" || hasAttr elt "select") &&
              !(hasAttr elt "target")) = true := by
            simpa using hcb
          have : comboIssues elt = [ValidationIssue.swapOrSelectWithoutTarget] := by
            unfold comboIssues; rw [hcb']; rfl
          rw [this] at hUC
          simp at hUC
      · rw [if_neg hE] at h
        simp at h
    · rintro ⟨hAll, hCond⟩
      have hU : unknownIssues elt = [] := by
        rw [List.eq_nil_iff_forall_not_mem]
        intro x hx
        obtain ⟨a, ha, hfa⟩ := List.mem_filterMap.mp hx
        rw [show VALID_COMMAND_ATTRIBUTES.contains a.1 = true from
              hAll a.1 a.2 (by simpa using ha)] at hfa
        simp at hfa
      have hC : comboIssues elt = [] := by
        unfold comboIssues; rw [hCond]; rfl
      rw [hU, hC]
      rfl

/-- Witness for C5's amended theorem at a marker with one valid attribute,
one unknown attribute, and `swap` without `target`. -/
theorem validation_collects_with_command_attr_witness :
    eltMix.attrs.any (fun a => VALID_COMMAND_ATTRIBUTES.contains a.1) = true ∧
    ∃ issues, validateCommandElement eltMix = some (ValidationError.collected issues) ∧
      ValidationIssue.unknownAttribute "bad" ∈ issues ∧
      ValidationIssue.swapOrSelectWithoutTarget ∈ issues := by
  refine ⟨rfl, ?_⟩
  obtain ⟨is1, h1, hm1⟩ :=
    (validation_collects_with_command_attr eltMix rfl).1 "bad" "1" (by simp [eltMix]) rfl
  obtain ⟨is2, h2, hm2⟩ := (validation_collects_with_command_attr eltMix rfl).2.1 rfl
  have his : is1 = is2 := by
    have := h1.symm.trans h2
    simpa using this
  exact ⟨is1, h1, hm1, his ▸ hm2⟩

/-- C10: an empty-string `target` attribute counts as present for the
swap/select-requires-target rule, so validation succeeds, yet the falsy
value skips the whole target block — no swap job, no `htmx:targetError` —
while the rest of the pipeline, through the post-command event, runs. -/
theorem empty_target_validates_but_skips_swap {Dom : Type} (env : Env Dom) (d : Dom)
    (elt : CommandElt)
    (hnames : ∀ a ∈ elt.attrs, VALID_COMMAND_ATTRIBUTES.contains a.1 = true)
    (hswap : hasAttr elt "swap" = true)
    (htar : hasAttr elt "target" = true)
    (ht0 : getAttr elt "target" = some "")
    (hc : env.cancelBeforeServerCommand elt = false)
    (hr : hasAttr elt "redirect" = false)
    (hrf : hasAttr elt "refresh" = false)
    (hl : hasAttr elt "location" = false) :
    validateCommandElement elt = none ∧
    (∀ s, Effect.targetErrorEvt s ∉ (processBody env d elt).trace) ∧
    (∀ job, Effect.beforeSwapEvt job ∉ (processBody env d elt).trace) ∧
    (∀ job sel st, Effect.swapApplied job sel st ∉ (processBody env d elt).trace) ∧
    Effect.afterServerCommandEvt elt ∈ (processBody env d elt).trace := by
  have hcAny : elt.attrs.any (fun a => VALID_COMMAND_ATTRIBUTES.contains a.1) = true := by
    obtain ⟨a, ha, hsw⟩ := List.any_eq_true.mp hswap
    refine List.any_eq_true.mpr ⟨a, ha, ?_⟩
    rw [show a.1 = "swap" from by simpa using hsw]
    rfl
  have hval : validateCommandElement elt =
      (if (unknownIssues elt ++ comboIssues elt).isEmpty then none
       else some (ValidationError.collected (unknownIssues elt ++ comboIssues elt))) := by
    unfold validateCommandElement unknownIssues comboIssues
    rw [hcAny]
    rfl
  have hU : unknownIssues elt = [] := by
    rw [List.eq_nil_iff_forall_not_mem]
    intro x hx
    obtain ⟨a, ha, hfa⟩ := List.mem_filterMap.mp hx
    rw [hnames a ha] at hfa
    simp at hfa
  have hC : comboIssues elt = [] := by
    unfold comboIssues
    simp [htar]
  have hv : validateCommandElement elt = none := by
    rw [hval, hU, hC]
    rfl
  have hg : gatherTarget env d elt = ⟨[], [], none⟩ := by
    simp [gatherTarget, ht0]
  have h1 : (processBody env d elt).trace =
      Effect.beforeServerCommandEvt elt :: Effect.afterSwapEvt elt ::
        (afterSwapTriggerPart env d elt ++
          (afterSettleTriggerPart env d elt ++ (immediateStage env d elt).fx)) := by
    simp [processBody, hc, hv, hg, runSwapJobs]
  have hLp : locationPart env elt = ⟨[], [], none⟩ := by
    simp [locationPart, hl]
  have hmemAfter : Effect.afterServerCommandEvt elt ∈ (immediateStage env d elt).fx := by
    simp [immediateStage, hLp, hr, hrf]
  refine ⟨hv, ?_, ?_, ?_, ?_⟩
  · intro s hmem
    rw [h1] at hmem
    simp only [List.mem_cons] at hmem
    rcases hmem with hm | hm | hm
    · exact Effect.noConfusion hm
    · exact Effect.noConfusion hm
    · have := postSwap_parts_shape env d elt _ hm
      simp [isImmediateFx] at this
  · intro job hmem
    rw [h1] at hmem
    simp only [List.mem_cons] at hmem
    rcases hmem with hm | hm | hm
    · exact Effect.noConfusion hm
    · exact Effect.noConfusion hm
    · have := postSwap_parts_shape env d elt _ hm
      simp [isImmediateFx] at this
  · intro job sel st hmem
    rw [h1] at hmem
    simp only [List.mem_cons] at hmem
    rcases hmem with hm | hm | hm
    · exact Effect.noConfusion hm
    · exact Effect.noConfusion hm
    · have := postSwap_parts_shape env d elt _ hm
      simp [isImmediateFx] at this
  · rw [h1]
    simp [hmemAfter]

/-- Witness for C10 at `<htmx target="" swap="innerHTML">`. -/
theorem empty_target_validates_but_skips_swap_witness :
    getAttr eltET "target" = some "" ∧
    validateCommandElement eltET = none ∧
    Effect.afterServerCommandEvt eltET ∈ (processBody env0 () eltET).trace ∧
    (∀ s, Effect.targetErrorEvt s ∉ (processBody env0 () eltET).trace) := by
  have h := empty_target_validates_but_skips_swap env0 () eltET (by decide) rfl rfl rfl
    rfl rfl rfl rfl
  exact ⟨rfl, h.1, h.2.2.2.2, h.2.1⟩

/-- C6: a present, non-empty `target` selector that matches nothing fires
the dedicated `htmx:targetError` event, creates no swap job and performs no
swap, while the rest of the marker's pipeline — after-swap notification,
trigger dispatches, history actions and the post-command event — still
runs. -/
theorem target_miss_rest_of_pipeline_runs {Dom : Type} (env : Env Dom) (d : Dom)
    (elt : CommandElt) (s : String)
    (hc : env.cancelBeforeServerCommand elt = false)
    (hv : validateCommandElement elt = none)
    (ht : getAttr elt "target" = some s)
    (hs : (s == "") = false)
    (hf : env.find d s = FindResult.notFound)
    (hr : hasAttr elt "redirect" = false)
    (hrf : hasAttr elt "refresh" = false)
    (hl : hasAttr elt "location" = false) :
    (processBody env d elt).trace =
      Effect.beforeServerCommandEvt elt :: Effect.targetErrorEvt s ::
        Effect.afterSwapEvt elt ::
        (afterSwapTriggerPart env d elt ++
          (afterSettleTriggerPart env d elt ++ (immediateStage env d elt).fx)) ∧
    Effect.targetErrorEvt s ∈ (processBody env d elt).trace ∧
    (∀ job, Effect.beforeSwapEvt job ∉ (processBody env d elt).trace) ∧
    (∀ job sel st, Effect.swapApplied job sel st ∉ (processBody env d elt).trace) ∧
    Effect.afterServerCommandEvt elt ∈ (processBody env d elt).trace ∧
    (hasAttr elt "push-url" = true →
      Effect.pushUrl (some (getAttrD elt "push-url")) ∈ (processBody env d elt).trace) := by
  have hg : gatherTarget env d elt = ⟨[Effect.targetErrorEvt s], [], none⟩ := by
    simp [gatherTarget, ht, hs, hf]
  have h1 : (processBody env d elt).trace =
      Effect.beforeServerCommandEvt elt :: Effect.targetErrorEvt s ::
        Effect.afterSwapEvt elt ::
        (afterSwapTriggerPart env d elt ++
          (afterSettleTriggerPart env d elt ++ (immediateStage env d elt).fx)) := by
    simp [processBody, hc, hv, hg, runSwapJobs]
  have hLp : locationPart env elt = ⟨[], [], none⟩ := by
    simp [locationPart, hl]
  have hmemAfter : Effect.afterServerCommandEvt elt ∈ (immediateStage env d elt).fx := by
    simp [immediateStage, hLp, hr, hrf]
  refine ⟨h1, ?_, ?_, ?_, ?_, ?_⟩
  · rw [h1]; simp
  · intro job hmem
    rw [h1] at hmem
    simp only [List.mem_cons] at hmem
    rcases hmem with hm | hm | hm | hm
    · exact Effect.noConfusion hm
    · exact Effect.noConfusion hm
    · exact Effect.noConfusion hm
    · have := postSwap_parts_shape env d elt _ hm
      simp [isImmediateFx] at this
  · intro job sel st hmem
    rw [h1] at hmem
    simp only [List.mem_cons] at hmem
    rcases hmem with hm | hm | hm | hm
    · exact Effect.noConfusion hm
    · exact Effect.noConfusion hm
    · exact Effect.noConfusion hm
    · have := postSwap_parts_shape env d elt _ hm
      simp [isImmediateFx] at this
  · rw [h1]
    simp [hmemAfter]
  · intro hpu
    have hmemPush : Effect.pushUrl (some (getAttrD elt "push-url")) ∈
        (immediateStage env d elt).fx := by
      simp [immediateStage, hLp, hr, hrf, pushUrlPart, hpu]
    rw [h1]
    simp [hmemPush]

/-- Witness for C6 at `<htmx target="#x" trigger="t" push-url="/n">` against
a document where `#x` does not resolve. -/
theorem target_miss_rest_of_pipeline_runs_witness :
    env0.find () "#x" = FindResult.notFound ∧
    Effect.targetErrorEvt "#x" ∈ (processBody env0 () eltTgt).trace ∧
    Effect.afterServerCommandEvt eltTgt ∈ (processBody env0 () eltTgt).trace ∧
    Effect.pushUrl (some "/n") ∈ (processBody env0 () eltTgt).trace := by
  have h := target_miss_rest_of_pipeline_runs env0 () eltTgt "#x" rfl rfl rfl rfl rfl
    rfl rfl rfl
  exact ⟨rfl, h.2.1, h.2.2.2.2.1, h.2.2.2.2.2 rfl⟩

/-- C3: the immediate phase executes `trigger`, `location`, `redirect`,
`refresh`, `push-url`, `replace-url` in that fixed order (the source checks
the attributes in sequence, so declaration order in the marker is
irrelevant); `redirect`, and `refresh` with a value other than `"false"`,
terminate the marker's remaining pipeline — no push-url/replace-url history
effect and no post-command event for that marker — while subsequent markers
in the same response still execute. -/
theorem immediate_phase_fixed_order {Dom : Type} (env : Env Dom) (d : Dom)
    (elt : CommandElt) (ms : List CommandElt) (lfx ldef : List Effect)
    (hloc : locationPart env elt = ⟨lfx, ldef, none⟩) :
    (hasAttr elt "redirect" = true →
       immediateStage env d elt =
         ⟨triggerPart env d elt ++ lfx ++ [Effect.redirectTo (getAttrD elt "redirect")],
          ldef, none⟩ ∧
       Effect.afterServerCommandEvt elt ∉ (immediateStage env d elt).fx ∧
       (∀ p, Effect.pushUrl p ∉ (immediateStage env d elt).fx) ∧
       (∀ p, Effect.replaceUrl p ∉ (immediateStage env d elt).fx)) ∧
    (hasAttr elt "redirect" = false →
      (hasAttr elt "refresh" && (getAttrD elt "refresh" != "false")) = true →
       immediateStage env d elt =
         ⟨triggerPart env d elt ++ lfx ++ [Effect.reload], ldef, none⟩ ∧
       Effect.afterServerCommandEvt elt ∉ (immediateStage env d elt).fx) ∧
    (hasAttr elt "redirect" = false →
      (hasAttr elt "refresh" && (getAttrD elt "refresh" != "false")) = false →
       immediateStage env d elt =
         ⟨triggerPart env d elt ++ lfx ++ pushUrlPart elt ++ replaceUrlPart elt ++
            [Effect.afterServerCommandEvt elt], ldef, none⟩) ∧
    (runMarkers env d (elt :: ms)).trace =
      (processCommandFromElement env d elt).trace ++
        (runMarkers env (processCommandFromElement env d elt).dom ms).trace := by
  have hlfx : ∀ e ∈ lfx, isLocationFx e = true := by
    have h := locationPart_fx_shape env elt
    rw [hloc] at h
    exact h
  refine ⟨?_, ?_, ?_, rfl⟩
  · intro hred
    have heq : immediateStage env d elt =
        ⟨triggerPart env d elt ++ lfx ++ [Effect.redirectTo (getAttrD elt "redirect")],
         ldef, none⟩ := by
      simp [immediateStage, hloc, hred]
    refine ⟨heq, ?_, ?_, ?_⟩
    · intro hmem
      rw [heq] at hmem
      simp only [List.mem_append, List.mem_singleton] at hmem
      rcases hmem with (hm | hm) | hm
      · have := triggerPart_mem_shape env d elt _ hm
        simp [isDispatchOrWarn] at this
      · have := hlfx _ hm
        simp [isLocationFx] at this
      · exact Effect.noConfusion hm
    · intro p hmem
      rw [heq] at hmem
      simp only [List.mem_append, List.mem_singleton] at hmem
      rcases hmem with (hm | hm) | hm
      · have := triggerPart_mem_shape env d elt _ hm
        simp [isDispatchOrWarn] at this
      · have := hlfx _ hm
        simp [isLocationFx] at this
      · exact Effect.noConfusion hm
    · intro p hmem
      rw [heq] at hmem
      simp only [List.mem_append, List.mem_singleton] at hmem
      rcases hmem with (hm | hm) | hm
      · have := triggerPart_mem_shape env d elt _ hm
        simp [isDispatchOrWarn] at this
      · have := hlfx _ hm
        simp [isLocationFx] at this
      · exact Effect.noConfusion hm
  · intro hred hrf
    have heq : immediateStage env d elt =
        ⟨triggerPart env d elt ++ lfx ++ [Effect.reload], ldef, none⟩ := by
      simp [immediateStage, hloc, hred, hrf]
    refine ⟨heq, ?_⟩
    intro hmem
    rw [heq] at hmem
    simp only [List.mem_append, List.mem_singleton] at hmem
    rcases hmem with (hm | hm) | hm
    · have := triggerPart_mem_shape env d elt _ hm
      simp [isDispatchOrWarn] at this
    · have := hlfx _ hm
      simp [isLocationFx] at this
    · exact Effect.noConfusion hm
  · intro hred hrf
    simp [immediateStage, hloc, hred, hrf]

/-- Witness for C3 at `<htmx trigger="t" redirect="/r" push-url="/u">`:
the redirect terminates the pipeline, so the `push-url` history mutation
and the post-command event never happen, and a following marker runs. -/
theorem immediate_phase_fixed_order_witness :
    hasAttr eltRed "redirect" = true ∧ hasAttr eltRed "push-url" = true ∧
    immediateStage env0 () eltRed =
      ⟨triggerPart env0 () eltRed ++ [] ++ [Effect.redirectTo "/r"], [], none⟩ ∧
    Effect.afterServerCommandEvt eltRed ∉ (immediateStage env0 () eltRed).fx ∧
    (∀ p, Effect.pushUrl p ∉ (immediateStage env0 () eltRed).fx) ∧
    (runMarkers env0 () [eltRed, mTrig]).trace =
      (processCommandFromElement env0 () eltRed).trace ++
        (runMarkers env0 (processCommandFromElement env0 () eltRed).dom [mTrig]).trace := by
  have h := immediate_phase_fixed_order env0 () eltRed [mTrig] [] [] rfl
  have h1 := h.1 rfl
  exact ⟨rfl, rfl, h1.1, h1.2.1, h1.2.2.1, h.2.2.2⟩

/-- C7: a trigger value that JSON-parses to an object fires exactly one
event per key, named after the key, with the key's value as detail; an
object detail's truthy, resolvable `target` field selects the dispatch
element and is removed from the detail before firing.  If JSON parsing
fails, the value is split on commas, each name trimmed and fired as a bare
event at the document root. -/
theorem trigger_dual_mode {Dom : Type} (env : Env Dom) (d : Dom) (v : String) :
    (∀ fs, env.jsonParse v = some (Json.obj fs) → (runTriggerKeys env d fs).2 = none →
       handleTriggerAttribute env d v =
         fs.flatMap (fun kv => (triggerKeyEffects env d kv).1) ∧
       (∀ kv ∈ fs, ∃ tgt det,
          ((triggerKeyEffects env d kv).1.filter isDispatchedFx) =
            [Effect.dispatched tgt kv.1 det]) ∧
       (∀ kv ∈ fs, ∀ gs tv, kv.2 = Json.obj gs → List.lookup "target" gs = some tv →
          jsTruthy tv = true → env.find d (jsToString tv) = FindResult.found →
          (triggerKeyEffects env d kv).1 =
            [Effect.dispatched (EvtTarget.selector (jsToString tv)) kv.1
               (some (Json.obj (removeField "target" gs)))])) ∧
    (env.jsonParse v = none →
       handleTriggerAttribute env d v =
         (jsSplitComma v).map (fun n => Effect.dispatched EvtTarget.body (jsTrim n) none)) := by
  constructor
  · intro fs hp hok
    obtain ⟨h1, h2⟩ := runTriggerKeys_ok env d fs hok
    refine ⟨?_, ?_, ?_⟩
    · unfold handleTriggerAttribute
      rw [hp]
      show (match runTriggerKeys env d fs with
        | (fx, none) => fx
        | (fx, some _) => fx ++ triggerFallback v) =
        fs.flatMap (fun kv => (triggerKeyEffects env d kv).1)
      rcases hru : runTriggerKeys env d fs with ⟨fx, oe⟩
      rw [hru] at hok h1
      cases oe
      · exact h1
      · simp at hok
    · intro kv hkv
      exact triggerKeyEffects_ok_filter env d kv (h2 kv hkv)
    · rintro ⟨k, j⟩ hkv gs tv hgs hlk htr hf
      simp only at hgs
      subst hgs
      rw [triggerKeyEffects_target_found env d k gs tv hlk htr hf]
  · intro hp
    unfold handleTriggerAttribute
    rw [hp]
    unfold triggerFallback
    rfl

/-- Witness for C7: the fallback fires two bare events for `"a,b"`, and an
object value fires one keyed event with the key's value as detail. -/
theorem trigger_dual_mode_witness :
    envJ.jsonParse "a,b" = none ∧
    handleTriggerAttribute envJ () "a,b" =
      [Effect.dispatched EvtTarget.body "a" none,
       Effect.dispatched EvtTarget.body "b" none] ∧
    envJ.jsonParse "objTrig" = some (Json.obj [("a", Json.obj [("x", Json.num 1)])]) ∧
    handleTriggerAttribute envJ () "objTrig" =
      [Effect.dispatched EvtTarget.body "a" (some (Json.obj [("x", Json.num 1)]))] := by
  have hpn : envJ.jsonParse "a,b" = none := rfl
  have h2 := (trigger_dual_mode envJ () "a,b").2 hpn
  have hpo : envJ.jsonParse "objTrig" =
      some (Json.obj [("a", Json.obj [("x", Json.num 1)])]) := rfl
  have h1 := (trigger_dual_mode envJ () "objTrig").1
    [("a", Json.obj [("x", Json.num 1)])] hpo rfl
  refine ⟨hpn, ?_, hpo, ?_⟩
  · rw [h2]
    rfl
  · rw [h1.1]
    rfl

end ServerCommands
